import Mathlib

/-!
Shallow embedding of glowie's streaming geometry pipeline.

Source of the embedding: `src/scope.rs` (`pack16snorm`, `pack2x16snorm`,
`pack2xu16`, `Scope::new`, `Scope::generate_chunks`) and `src/main.rs`
(`App::redraw`, `App::reconfigure`).

Modelling conventions:
* `f32` values are modelled as exact rationals `ℚ`; the properties under test
  concern quantization steps and geometric thresholds, not binary float
  rounding.
* `u16`/`u32`/`usize` are modelled as `ℕ`/`ℤ` with an explicit `% 65536` where
  the source reinterprets with `as u16`; the saturating `as i16` cast of a
  float is modelled with explicit `min`/`max`.
* Rust panics (usize underflow in a debug build followed by an out-of-bounds
  `copy_within`, a failed `try_into::<u16>()`, a `u16` addition overflow in the
  directory loop) are modelled by `Option.none`.
* The source test `8.0 * disp.length() < 1.0` is embedded squared, as
  `64 * (disp ⬝ disp) < 1`; the two are equivalent over the reals because both
  sides are nonnegative, and the squared form stays inside `ℚ`.
-/

namespace Glowie

abbrev Q2 : Type := ℚ × ℚ

/-- `const MAX_LINES: usize = 65536;` (scope.rs:11). -/
def MAX_LINES : ℕ := 65536

/-- `e.clamp(-1.0, 1.0)` for floats: `min (max x lo) hi`. -/
def clampQ (x lo hi : ℚ) : ℚ := min (max x lo) hi

/-- `fn pack16snorm(e: f32) -> u16 { (0.5 + 32767.0 * e.clamp(-1.0, 1.0)).floor() as i16 as u16 }`
(scope.rs:66-68).  The `as i16` cast saturates (it never actually saturates
here, since the clamped argument keeps the floor in `[-32767, 32767]`), and
`as u16` is the two's-complement reinterpretation, i.e. reduction mod `2^16`. -/
def pack16snorm (e : ℚ) : ℕ :=
  let k : ℤ := ⌊(1 / 2 : ℚ) + 32767 * clampQ e (-1) 1⌋
  ((max (-32768) (min 32767 k)) % 65536).toNat

/-- `fn pack2x16snorm(e: [f32; 2]) -> u32` (scope.rs:70-72): low half is the
first component, high half the second. -/
def pack2x16snorm (e : Q2) : ℕ := pack16snorm e.1 + 65536 * pack16snorm e.2

/-- `fn pack2xu16(e: [u16; 2]) -> u32` (scope.rs:74-76). -/
def pack2xu16 (e : ℕ × ℕ) : ℕ := e.1 % 65536 + 65536 * (e.2 % 65536)

/-- Modelled from the spec: the snorm16 decoder used by the consuming shader.
The WGSL shader `scope.wgsl` belongs to the repository but is not under
`src/`, so the decoder is modelled from the spec's words: packing is lossy
with quantization step 1/32767 over `[-1, 1]`, i.e. the standard snorm16
decode `max(i / 32767, -1)` of the two's-complement 16-bit value `i`. -/
def unpack16snorm (n : ℕ) : ℚ :=
  let m : ℕ := n % 65536
  let i : ℤ := if m < 32768 then (m : ℤ) else (m : ℤ) - 65536
  max ((i : ℚ) / 32767) (-1)

/-- Modelled from the spec: two snorm16 lanes of one 32-bit word. -/
def unpack2x16snorm (n : ℕ) : Q2 :=
  (unpack16snorm (n % 65536), unpack16snorm (n / 65536 % 65536))

/-- `struct Line { start: u32, v: u32, time: f32 }` (scope.rs:56-64).
`time` only ever holds `batch_size as f32`, a small natural number, so it is
modelled as `ℕ` (exact in `f32` below `2^24`). -/
structure Line where
  start : ℕ
  v : ℕ
  time : ℕ
deriving DecidableEq, Repr

/-- The `line_data` value built for one sample window (scope.rs:344-348). -/
def mkLine (a b : Q2) (k : ℕ) : Line :=
  { start := pack2x16snorm a, v := pack2x16snorm (b - a), time := k }

/-- Chunk (tile) center for row-major index `i = 16 * chunk_y + chunk_x`
(scope.rs:352-355): `((chunk_x - 7.5) / 8, (chunk_y - 7.5) / 8)`. -/
def tileCenter (i : ℕ) : Q2 :=
  ((((i % 16 : ℕ) : ℚ) - 15 / 2) / 8, (((i / 16 : ℕ) : ℚ) - 15 / 2) / 8)

def dot (a b : Q2) : ℚ := a.1 * b.1 + a.2 * b.2

/-- The clamped projection parameter (scope.rs:360-365): `0` when the segment
is degenerate, otherwise `clamp(u·v / v·v, 0, 1)`. -/
def closestT (s e c : Q2) : ℚ :=
  let v := e - s
  if dot v v = 0 then 0 else clampQ (dot (c - s) v / dot v v) 0 1

/-- `disp` of scope.rs:360-365: the displacement from the tile center to the
clamped closest point of the segment. -/
def disp (s e c : Q2) : Q2 := (c - s) - closestT s e c • (e - s)

def dispSq (s e c : Q2) : ℚ := dot (disp s e c) (disp s e c)

/-- Acceptance test `8.0 * disp.length() < 1.0` (scope.rs:368), embedded in
its squared form `64 * |disp|² < 1`. -/
def acceptB (s e c : Q2) : Bool := decide (64 * dispSq s e c < 1)

/-- Row-major indices of the tiles accepting a segment; the double loop of
scope.rs:350-373 visits `i_chunk = 16 * chunk_y + chunk_x` in exactly this
ascending order. -/
def acceptedIdxs (s e : Q2) : List ℕ :=
  (List.range 256).filter (fun i => acceptB s e (tileCenter i))

/-- `self.chunk_lines[i].push(L)`: `Vec::push` appends at the end. -/
def pushAt (ch : List (List Line)) (i : ℕ) (L : Line) : List (List Line) :=
  ch.set i (ch.getD i [] ++ [L])

/-- State of the binning loop of `generate_chunks` (scope.rs:336-380):
the 256 tile buckets, `line_buffer_size`, `batch_size`, and (as a faithful
observation of the per-iteration `line_data` values) the emitted segments. -/
structure BinState where
  chunks : List (List Line)
  lbs : ℕ
  batch : ℕ
  emitted : List Line
deriving DecidableEq

/-- One iteration of the outer `for seg in self.samples.windows(2)` body
(scope.rs:338-374): build `line_data`, push it into every accepting tile's
bucket while counting assignments, then increment `batch_size`. -/
def binStep (s0 s1 : Q2) (st : BinState) : BinState :=
  let L := mkLine s0 s1 st.batch
  { chunks := (acceptedIdxs s0 s1).foldl (fun c i => pushAt c i L) st.chunks
    lbs := st.lbs + (acceptedIdxs s0 s1).length
    batch := st.batch + 1
    emitted := st.emitted ++ [L] }

/-- The whole binning loop, including the budget break
`if line_buffer_size > MAX_LINES - 256 { break; }` checked after every
window (scope.rs:376-379).  `windows(2)` yields nothing on lists shorter
than 2. -/
def binLoop : List Q2 → BinState → BinState
  | s0 :: s1 :: rest, st =>
    let st1 := binStep s0 s1 st
    if MAX_LINES - 256 < st1.lbs then st1 else binLoop (s1 :: rest) st1
  | _, st => st

/-- `chunk_lines` starts as (and, being drained every frame, re-enters every
frame as) 256 empty buckets (scope.rs:191). -/
def initChunks : List (List Line) := List.replicate 256 []

def binPhase (samples : List Q2) : BinState :=
  binLoop samples { chunks := initChunks, lbs := 0, batch := 0, emitted := [] }

/-- The directory loop (scope.rs:383-388): a running `offset: u16`, per tile a
`size: u16 = len.try_into().unwrap()` and a stored `(offset, size)` pair,
then `offset += size`.  `none` models a panic of the `try_into` unwrap
(`len > 65535`) or of the debug-mode `u16` addition overflow
(`offset + size > 65535`) — which in a release build would instead silently
wrap the running 16-bit offset. -/
def buildDirectory : ℕ → List (List Line) → Option (List (ℕ × ℕ))
  | _, [] => some []
  | off, c :: cs =>
    if c.length ≤ 65535 ∧ off + c.length ≤ 65535 then
      (buildDirectory (off + c.length) cs).map (fun d => (off, c.length) :: d)
    else
      none

/-- The backlog update (scope.rs:396-397):
`samples.copy_within(batch_size - 1.., 0)` followed by
`samples.truncate(samples.len() - batch_size + 1)`, written out literally:
`copy_within(src.., 0)` leaves `l.drop src ++ l.drop (l.length - src)` and
`truncate` is `take`.  The caller checks `batch = 0` (usize underflow panic)
before using this. -/
def genSamplesAfter (samples : List Q2) (batch : ℕ) : List Q2 :=
  (samples.drop (batch - 1) ++ samples.drop (samples.length - (batch - 1))).take
    (samples.length - batch + 1)

/-- Observable result of one `generate_chunks` call: the directory, the tile
buckets at directory-build time, the flattened line buffer, the drained
buckets, the retained backlog, `batch_size`, the emitted segments, and
`total_time`. -/
structure GenResult where
  dir : List (ℕ × ℕ)
  buckets : List (List Line)
  lines : List Line
  chunksAfter : List (List Line)
  samplesAfter : List Q2
  batch : ℕ
  emitted : List Line
  totalTime : ℕ
deriving DecidableEq

/-- `Scope::generate_chunks` (scope.rs:334-401): bin, build the directory,
flatten the buckets (draining them), drop the processed samples, set
`total_time`.  `none` models a panic: either in the directory loop, or — when
`batch_size = 0`, i.e. fewer than 2 backlog frames — the `usize` underflow of
`batch_size - 1` (debug) / the out-of-bounds `copy_within` range (release). -/
def generateChunks (samples : List Q2) : Option GenResult :=
  let st := binPhase samples
  match buildDirectory 0 st.chunks with
  | none => none
  | some d =>
    if st.batch = 0 then none
    else
      some { dir := d
             buckets := st.chunks
             lines := st.chunks.flatten
             chunksAfter := List.replicate 256 []
             samplesAfter := genSamplesAfter samples st.batch
             batch := st.batch
             emitted := st.emitted
             totalTime := st.batch }

/-- Total number of lines held by the buckets. -/
def sumLens (ch : List (List Line)) : ℕ := (ch.map List.length).sum

/-- The segment list the spec expects for a backlog: one `Line` per adjacent
pair, with times `k, k+1, …`. -/
def segTimes : List Q2 → ℕ → List Line
  | a :: b :: rest, k => mkLine a b k :: segTimes (b :: rest) (k + 1)
  | _, _ => []

/-- `Scope::new` seeds the backlog with a single zero sample:
`let samples = vec![[0.0; 2]];` (scope.rs:190). -/
def initialSamples : List Q2 := [(0, 0)]

/-! ### The surface-acquisition loop of `App::redraw` (main.rs:118-143) -/

/-- `wgpu::SurfaceError` variants distinguished by the match in
`App::redraw` (main.rs:120-131). -/
inductive SurfaceErr
  | timeout
  | outdated
  | lost
  | outOfMemory
deriving DecidableEq

/-- Result of one `surface.get_current_texture()` attempt. -/
inductive AcquireResult
  | ok
  | err (e : SurfaceErr)
deriving DecidableEq

/-- The app state visible to the claim: the scope's pending sample backlog and
a counter of `reconfigure` calls. -/
structure AppState where
  samples : List Q2
  configuredCount : ℕ
deriving DecidableEq

/-- `App::reconfigure` (main.rs:150-163) touches only the surface
configuration, never the scope's pending samples. -/
def reconfigure (st : AppState) : AppState :=
  { st with configuredCount := st.configuredCount + 1 }

/-- The body after acquisition succeeds: `scope.draw` runs `generate_chunks`
on the pending samples (scope.rs:409). -/
def drawFrame (st : AppState) : Option AppState :=
  (generateChunks st.samples).map fun r => { st with samples := r.samplesAfter }

inductive RedrawOutcome
  | presented (st : AppState)
  | deferredOk (st : AppState)
  | failed (e : SurfaceErr) (st : AppState)
deriving DecidableEq

/-- The acquisition loop (main.rs:119-132), driven by the finite list of
results successive `get_current_texture()` calls would produce:
`Ok` breaks into the draw; `Lost` reconfigures and retries; `Timeout` and
`Outdated` return `Ok(())` without drawing (defer to the next tick); any
other error (`OutOfMemory`) is returned to the caller.  `none` means the
attempt list was exhausted while the loop was still retrying. -/
def redrawLoop : List AcquireResult → AppState → Option RedrawOutcome
  | .ok :: _, st => (drawFrame st).map .presented
  | .err .lost :: rest, st => redrawLoop rest (reconfigure st)
  | .err .timeout :: _, st => some (.deferredOk st)
  | .err .outdated :: _, st => some (.deferredOk st)
  | .err .outOfMemory :: _, st => some (.failed .outOfMemory st)
  | [], _ => none

/-- The packed endpoint a consumer reconstructs from a `Line`:
decoded start plus decoded direction. -/
def encodedEndpoint (l : Line) : Q2 :=
  unpack2x16snorm l.start + unpack2x16snorm l.v

/-- First coordinate of the clamped closest point of the segment. -/
def qx (s e c : Q2) : ℚ := s.1 + closestT s e c * (e.1 - s.1)

/-- Second coordinate of the clamped closest point of the segment. -/
def qy (s e c : Q2) : ℚ := s.2 + closestT s e c * (e.2 - s.2)

/-- The center of tile 0, used as a sample value: a degenerate segment sitting
exactly there is accepted by tile 0 and by no other tile. -/
def ccSample : Q2 := ((-15) / 16, (-15) / 16)

/-- A small two-frame backlog used to instantiate theorems with hypotheses. -/
def demoPair : List Q2 := [(0, 0), (0, 0)]

/-- The end to end scenario of the spec: a fresh `Scope` (whose backlog is
`initialSamples`) extended with the frames `(0,0), (1,0), (1,1)`. -/
def scenarioSamples : List Q2 := initialSamples ++ [(0, 0), (1, 0), (1, 1)]

/-- A bin state sitting exactly at the budget threshold. -/
def stBudget : BinState :=
  { chunks := initChunks, lbs := MAX_LINES - 256, batch := 0, emitted := [] }

end Glowie

namespace Glowie

/-! ### Quantization lemmas for `pack16snorm` / `unpack16snorm` -/

lemma clampQ_of_mem {x : ℚ} (h1 : -1 ≤ x) (h2 : x ≤ 1) : clampQ x (-1) 1 = x := by
  rw [clampQ, max_eq_left h1, min_eq_left h2]

lemma clampQ_mem_lo (x : ℚ) : -1 ≤ clampQ x (-1) 1 :=
  le_min (le_max_right x (-1)) (by norm_num)

lemma clampQ_mem_hi (x : ℚ) : clampQ x (-1) 1 ≤ 1 := min_le_right _ _

lemma clampQ_idem (x : ℚ) : clampQ (clampQ x (-1) 1) (-1) 1 = clampQ x (-1) 1 :=
  clampQ_of_mem (clampQ_mem_lo x) (clampQ_mem_hi x)

lemma pack16snorm_clamp (x : ℚ) : pack16snorm (clampQ x (-1) 1) = pack16snorm x := by
  unfold pack16snorm
  rw [clampQ_idem]

lemma pack_floor_range {x : ℚ} (h1 : -1 ≤ x) (h2 : x ≤ 1) :
    -32767 ≤ ⌊(1 / 2 : ℚ) + 32767 * x⌋ ∧ ⌊(1 / 2 : ℚ) + 32767 * x⌋ ≤ 32767 := by
  constructor
  · exact Int.le_floor.mpr (by push_cast; linarith)
  · have h : ⌊(1 / 2 : ℚ) + 32767 * x⌋ < 32768 := Int.floor_lt.mpr (by push_cast; linarith)
    omega

lemma unpack_pack_eq {x : ℚ} (h1 : -1 ≤ x) (h2 : x ≤ 1) :
    unpack16snorm (pack16snorm x) = (⌊(1 / 2 : ℚ) + 32767 * x⌋ : ℚ) / 32767 := by
  obtain ⟨hlo, hhi⟩ := pack_floor_range h1 h2
  have hclamp : clampQ x (-1) 1 = x := clampQ_of_mem h1 h2
  set k : ℤ := ⌊(1 / 2 : ℚ) + 32767 * x⌋ with hk
  have hsat : max (-32768) (min 32767 k) = k := by omega
  have hpack : pack16snorm x = (k % 65536).toNat := by
    show ((max (-32768) (min 32767 (⌊(1 / 2 : ℚ) + 32767 * clampQ x (-1) 1⌋))) % 65536).toNat
        = (k % 65536).toNat
    rw [hclamp, ← hk, hsat]
  have hdivge : (-1 : ℚ) ≤ (k : ℚ) / 32767 := by
    rw [le_div_iff₀ (by norm_num : (0 : ℚ) < 32767)]
    have hcast : ((-32767 : ℤ) : ℚ) ≤ (k : ℚ) := by exact_mod_cast hlo
    push_cast at hcast ⊢
    linarith
  rcases le_or_lt 0 k with hpos | hneg
  · have hmod : k % 65536 = k := Int.emod_eq_of_lt hpos (by omega)
    have hm : k.toNat % 65536 = k.toNat := Nat.mod_eq_of_lt (by omega)
    have hnlt : k.toNat % 65536 < 32768 := by omega
    rw [hpack, hmod, unpack16snorm]
    rw [if_pos hnlt, hm, Int.toNat_of_nonneg hpos]
    exact max_eq_left hdivge
  · have hmod : k % 65536 = k + 65536 := by omega
    set n : ℕ := (k + 65536).toNat with hn
    have hm : n % 65536 = n := Nat.mod_eq_of_lt (by omega)
    have hnge : ¬ n % 65536 < 32768 := by omega
    have hcast : ((n % 65536 : ℕ) : ℤ) - 65536 = k := by omega
    rw [hpack, hmod, ← hn, unpack16snorm]
    rw [if_neg hnge, hcast]
    exact max_eq_left hdivge

lemma roundtrip_half {x : ℚ} (h1 : -1 ≤ x) (h2 : x ≤ 1) :
    |unpack16snorm (pack16snorm x) - x| ≤ 1 / 65534 := by
  rw [unpack_pack_eq h1 h2]
  set k : ℤ := ⌊(1 / 2 : ℚ) + 32767 * x⌋ with hk
  have hle : (k : ℚ) ≤ 1 / 2 + 32767 * x := Int.floor_le _
  have hgt : (1 / 2 : ℚ) + 32767 * x - 1 < (k : ℚ) := Int.sub_one_lt_floor _
  have h3 : (k : ℚ) / 32767 - x = ((k : ℚ) - 32767 * x) * (1 / 32767) := by ring
  rw [abs_le]
  constructor
  · rw [h3]; linarith
  · rw [h3]; linarith

end Glowie

namespace Glowie

/-! ### Boundary behaviour of the packer -/

lemma clampQ_of_ge_one {d : ℚ} (hd : 1 ≤ d) : clampQ d (-1) 1 = 1 := by
  rw [clampQ, max_eq_left (by linarith : (-1 : ℚ) ≤ d), min_eq_right hd]

lemma clampQ_of_le_neg_one {d : ℚ} (hd : d ≤ -1) : clampQ d (-1) 1 = -1 := by
  rw [clampQ, max_eq_right hd, min_eq_left (by norm_num : (-1 : ℚ) ≤ 1)]

lemma pack16snorm_of_ge_one {d : ℚ} (hd : 1 ≤ d) : pack16snorm d = pack16snorm 1 := by
  rw [← pack16snorm_clamp d, clampQ_of_ge_one hd]

lemma pack16snorm_of_le_neg_one {d : ℚ} (hd : d ≤ -1) : pack16snorm d = pack16snorm (-1) := by
  rw [← pack16snorm_clamp d, clampQ_of_le_neg_one hd]

unseal Rat.add Rat.mul Rat.sub Rat.inv in
lemma unpack_pack_one : unpack16snorm (pack16snorm 1) = 1 := by decide

unseal Rat.add Rat.mul Rat.sub Rat.inv in
lemma unpack_pack_neg_one : unpack16snorm (pack16snorm (-1)) = -1 := by decide

/-! ### Geometry of the tile-acceptance test -/

lemma disp_fst (s e c : Q2) : (disp s e c).1 = c.1 - qx s e c := by
  simp only [disp, qx, Prod.fst_sub, Prod.smul_fst, smul_eq_mul]
  ring

lemma disp_snd (s e c : Q2) : (disp s e c).2 = c.2 - qy s e c := by
  simp only [disp, qy, Prod.snd_sub, Prod.smul_snd, smul_eq_mul]
  ring

lemma dispSq_eq (s e c : Q2) :
    dispSq s e c = (c.1 - qx s e c) ^ 2 + (c.2 - qy s e c) ^ 2 := by
  rw [dispSq, dot, disp_fst, disp_snd]
  ring

lemma accept_bounds {s e c : Q2} (h : acceptB s e c = true) :
    c.1 - 1 / 8 < qx s e c ∧ qx s e c < c.1 + 1 / 8 ∧
    c.2 - 1 / 8 < qy s e c ∧ qy s e c < c.2 + 1 / 8 := by
  have h64 : 64 * dispSq s e c < 1 := of_decide_eq_true h
  rw [dispSq_eq] at h64
  refine ⟨?_, ?_, ?_, ?_⟩
  · nlinarith [sq_nonneg (c.2 - qy s e c), sq_nonneg (c.1 - qx s e c - 1 / 8)]
  · nlinarith [sq_nonneg (c.2 - qy s e c), sq_nonneg (c.1 - qx s e c + 1 / 8)]
  · nlinarith [sq_nonneg (c.1 - qx s e c), sq_nonneg (c.2 - qy s e c - 1 / 8)]
  · nlinarith [sq_nonneg (c.1 - qx s e c), sq_nonneg (c.2 - qy s e c + 1 / 8)]

/-- Any three clamped closest points of one segment are collinear: the cross
product of their differences vanishes. -/
lemma q_collinear (s e c1 c2 c3 : Q2) :
    (qx s e c2 - qx s e c1) * (qy s e c3 - qy s e c1) =
    (qy s e c2 - qy s e c1) * (qx s e c3 - qx s e c1) := by
  simp only [qx, qy]
  ring

/-- No segment is accepted by all three of the corner tiles 0, 15, 240: their
centers span a triangle far wider than the acceptance threshold, while the
three closest points would have to be collinear. -/
lemma not_all_corner_tiles (s e : Q2) :
    ¬(acceptB s e (tileCenter 0) = true ∧ acceptB s e (tileCenter 15) = true ∧
      acceptB s e (tileCenter 240) = true) := by
  rintro ⟨h0, h15, h240⟩
  obtain ⟨a1, a2, a3, a4⟩ := accept_bounds h0
  obtain ⟨b1, b2, b3, b4⟩ := accept_bounds h15
  obtain ⟨d1, d2, d3, d4⟩ := accept_bounds h240
  have e0x : (tileCenter 0).1 = -15 / 16 := by norm_num [tileCenter]
  have e0y : (tileCenter 0).2 = -15 / 16 := by norm_num [tileCenter]
  have e15x : (tileCenter 15).1 = 15 / 16 := by norm_num [tileCenter]
  have e15y : (tileCenter 15).2 = -15 / 16 := by norm_num [tileCenter]
  have e240x : (tileCenter 240).1 = -15 / 16 := by norm_num [tileCenter]
  have e240y : (tileCenter 240).2 = 15 / 16 := by norm_num [tileCenter]
  rw [e0x] at a1 a2
  rw [e0y] at a3 a4
  rw [e15x] at b1 b2
  rw [e15y] at b3 b4
  rw [e240x] at d1 d2
  rw [e240y] at d3 d4
  have hcol := q_collinear s e (tileCenter 0) (tileCenter 15) (tileCenter 240)
  set x0 := qx s e (tileCenter 0) with hx0
  set y0 := qy s e (tileCenter 0) with hy0
  set x1 := qx s e (tileCenter 15) with hx1
  set y1 := qy s e (tileCenter 15) with hy1
  set x2 := qx s e (tileCenter 240) with hx2
  set y2 := qy s e (tileCenter 240) with hy2
  nlinarith [hcol,
    mul_pos (show (0 : ℚ) < (x1 - x0) - 13 / 8 by linarith)
            (show (0 : ℚ) < (y2 - y0) - 13 / 8 by linarith),
    mul_pos (show (0 : ℚ) < 1 / 4 - (y1 - y0) by linarith)
            (show (0 : ℚ) < 1 / 4 + (y1 - y0) by linarith),
    mul_pos (show (0 : ℚ) < 1 / 4 - (x2 - x0) by linarith)
            (show (0 : ℚ) < 1 / 4 + (x2 - x0) by linarith),
    sq_nonneg ((y1 - y0) - (x2 - x0)), sq_nonneg ((y1 - y0) + (x2 - x0))]

/-- At most 255 of the 256 tiles can accept any one segment. -/
lemma acceptedIdxs_length_le (s e : Q2) : (acceptedIdxs s e).length ≤ 255 := by
  by_contra hlen
  push_neg at hlen
  have hsub : List.Sublist (acceptedIdxs s e) (List.range 256) := List.filter_sublist _
  have hlen2 : (acceptedIdxs s e).length ≤ 256 := by
    simpa using hsub.length_le
  have heqlen : (acceptedIdxs s e).length = (List.range 256).length := by
    simp only [List.length_range]
    omega
  have heq : acceptedIdxs s e = List.range 256 := hsub.eq_of_length heqlen
  have hmem : ∀ i, i ∈ List.range 256 → acceptB s e (tileCenter i) = true := by
    intro i hi
    have hin : i ∈ acceptedIdxs s e := heq ▸ hi
    rw [acceptedIdxs] at hin
    simpa using (List.mem_filter.mp hin).2
  exact not_all_corner_tiles s e
    ⟨hmem 0 (by simp), hmem 15 (by simp), hmem 240 (by simp)⟩

end Glowie

namespace Glowie

/-! ### Bucket update lemmas -/

lemma pushAt_length (ch : List (List Line)) (i : ℕ) (L : Line) :
    (pushAt ch i L).length = ch.length := by
  simp [pushAt]

lemma foldl_pushAt_length (idxs : List ℕ) (ch : List (List Line)) (L : Line) :
    (idxs.foldl (fun c i => pushAt c i L) ch).length = ch.length := by
  induction idxs generalizing ch with
  | nil => rfl
  | cons i tl ih => rw [List.foldl_cons, ih, pushAt_length]

lemma sumLens_cons (c : List Line) (cs : List (List Line)) :
    sumLens (c :: cs) = c.length + sumLens cs := by
  simp [sumLens]

lemma pushAt_cons_zero (c : List Line) (cs : List (List Line)) (L : Line) :
    pushAt (c :: cs) 0 L = (c ++ [L]) :: cs := by
  simp [pushAt]

lemma pushAt_cons_succ (c : List Line) (cs : List (List Line)) (i : ℕ) (L : Line) :
    pushAt (c :: cs) (i + 1) L = c :: pushAt cs i L := by
  simp [pushAt]

lemma sumLens_pushAt : ∀ (ch : List (List Line)) (i : ℕ) (L : Line), i < ch.length →
    sumLens (pushAt ch i L) = sumLens ch + 1
  | c :: cs, 0, L, _ => by
      rw [pushAt_cons_zero, sumLens_cons, sumLens_cons, List.length_append]
      simp
      omega
  | c :: cs, i + 1, L, h => by
      rw [pushAt_cons_succ, sumLens_cons, sumLens_cons,
        sumLens_pushAt cs i L (by simpa using h)]
      omega

lemma foldl_pushAt_sumLens : ∀ (idxs : List ℕ) (ch : List (List Line)) (L : Line),
    (∀ i ∈ idxs, i < ch.length) →
    sumLens (idxs.foldl (fun c i => pushAt c i L) ch) = sumLens ch + idxs.length
  | [], ch, L, _ => rfl
  | i :: tl, ch, L, h => by
      rw [List.foldl_cons,
        foldl_pushAt_sumLens tl (pushAt ch i L) L
          (by intro j hj; rw [pushAt_length]; exact h j (List.mem_cons_of_mem i hj)),
        sumLens_pushAt ch i L (h i (List.mem_cons_self i tl))]
      simp [Nat.add_assoc, Nat.add_comm 1 tl.length]

lemma pushAt_getElem? (ch : List (List Line)) (i : ℕ) (L : Line) (j : ℕ) :
    (pushAt ch i L)[j]? = if j = i then (ch[j]?).map (· ++ [L]) else ch[j]? := by
  rcases eq_or_ne j i with rfl | hne
  · rw [if_pos rfl]
    rcases Nat.lt_or_ge j ch.length with hlt | hge
    · rw [pushAt, List.getElem?_set, if_pos rfl, if_pos hlt,
        List.getElem?_eq_getElem hlt]
      simp [List.getD_eq_getElem?_getD, List.getElem?_eq_getElem hlt]
    · rw [pushAt, List.set_eq_of_length_le hge, List.getElem?_eq_none (by omega)]
      rfl
  · rw [if_neg hne, pushAt, List.getElem?_set_ne (Ne.symm hne)]

lemma foldl_pushAt_getElem? : ∀ (idxs : List ℕ), idxs.Nodup →
    ∀ (ch : List (List Line)) (L : Line) (j : ℕ),
    (idxs.foldl (fun c i => pushAt c i L) ch)[j]? =
      if j ∈ idxs then (ch[j]?).map (· ++ [L]) else ch[j]?
  | [], _, ch, L, j => by simp
  | i :: tl, hnd, ch, L, j => by
      have hnotmem : i ∉ tl := (List.nodup_cons.mp hnd).1
      have htl : tl.Nodup := (List.nodup_cons.mp hnd).2
      rw [List.foldl_cons, foldl_pushAt_getElem? tl htl (pushAt ch i L) L j,
        pushAt_getElem?]
      rcases eq_or_ne j i with rfl | hne
      · have hjtl : j ∉ tl := hnotmem
        rw [if_neg hjtl, if_pos rfl, if_pos (List.mem_cons_self j tl)]
      · rcases Decidable.em (j ∈ tl) with hmem | hmem
        · rw [if_pos hmem, if_neg hne, if_pos (List.mem_cons_of_mem i hmem)]
        · rw [if_neg hmem, if_neg hne, if_neg (by simp [hne, hmem])]

/-! ### Binning loop unfolding and invariants -/

lemma binLoop_nil (st : BinState) : binLoop [] st = st := rfl

lemma binLoop_single (a : Q2) (st : BinState) : binLoop [a] st = st := rfl

lemma binLoop_cons2 (a b : Q2) (l : List Q2) (st : BinState) :
    binLoop (a :: b :: l) st =
      if MAX_LINES - 256 < (binStep a b st).lbs then binStep a b st
      else binLoop (b :: l) (binStep a b st) := rfl

lemma binStep_lbs (s0 s1 : Q2) (st : BinState) :
    (binStep s0 s1 st).lbs = st.lbs + (acceptedIdxs s0 s1).length := rfl

lemma binStep_batch (s0 s1 : Q2) (st : BinState) :
    (binStep s0 s1 st).batch = st.batch + 1 := rfl

lemma binStep_emitted (s0 s1 : Q2) (st : BinState) :
    (binStep s0 s1 st).emitted = st.emitted ++ [mkLine s0 s1 st.batch] := rfl

lemma binStep_chunks_length (s0 s1 : Q2) (st : BinState) :
    (binStep s0 s1 st).chunks.length = st.chunks.length :=
  foldl_pushAt_length _ _ _

lemma acceptedIdxs_mem_lt {s0 s1 : Q2} {i : ℕ} (h : i ∈ acceptedIdxs s0 s1) : i < 256 := by
  rw [acceptedIdxs] at h
  simpa using List.mem_range.mp (List.mem_filter.mp h).1

lemma binStep_sumLens (s0 s1 : Q2) (st : BinState) (hlen : st.chunks.length = 256) :
    sumLens (binStep s0 s1 st).chunks = sumLens st.chunks + (acceptedIdxs s0 s1).length := by
  exact foldl_pushAt_sumLens _ _ _ (fun i hi => by rw [hlen]; exact acceptedIdxs_mem_lt hi)

/-- The main safety invariant of the binning loop: bucket count stays 256, the
assignment counter counts exactly the bucketed lines, and — because the loop
breaks as soon as the counter exceeds `MAX_LINES - 256` and one segment can add
at most 255 assignments — the counter never exceeds 65535. -/
lemma binLoop_invariant : ∀ (samples : List Q2) (st : BinState),
    st.chunks.length = 256 → sumLens st.chunks = st.lbs → st.lbs ≤ MAX_LINES - 256 →
    (binLoop samples st).chunks.length = 256 ∧
    sumLens (binLoop samples st).chunks = (binLoop samples st).lbs ∧
    (binLoop samples st).lbs ≤ MAX_LINES - 1
  | [], st, h1, h2, h3 => by
      rw [binLoop_nil]
      refine ⟨h1, h2, ?_⟩
      rw [MAX_LINES] at h3 ⊢
      omega
  | [a], st, h1, h2, h3 => by
      rw [binLoop_single]
      refine ⟨h1, h2, ?_⟩
      rw [MAX_LINES] at h3 ⊢
      omega
  | a :: b :: l, st, h1, h2, h3 => by
      rw [binLoop_cons2]
      have hcnt : (acceptedIdxs a b).length ≤ 255 := acceptedIdxs_length_le a b
      have h1' : (binStep a b st).chunks.length = 256 := by
        rw [binStep_chunks_length, h1]
      have h2' : sumLens (binStep a b st).chunks = (binStep a b st).lbs := by
        rw [binStep_sumLens a b st h1, binStep_lbs, h2]
      rcases Decidable.em (MAX_LINES - 256 < (binStep a b st).lbs) with hbr | hbr
      · rw [if_pos hbr]
        refine ⟨h1', h2', ?_⟩
        rw [binStep_lbs]
        rw [MAX_LINES] at h3 ⊢
        omega
      · rw [if_neg hbr]
        exact binLoop_invariant (b :: l) (binStep a b st) h1' h2' (by omega)

end Glowie

namespace Glowie

/-! ### Emitted segments and batch count of the binning loop -/

lemma segTimes_nil (k : ℕ) : segTimes [] k = [] := rfl

lemma segTimes_single (a : Q2) (k : ℕ) : segTimes [a] k = [] := rfl

lemma segTimes_cons2 (a b : Q2) (l : List Q2) (k : ℕ) :
    segTimes (a :: b :: l) k = mkLine a b k :: segTimes (b :: l) (k + 1) := rfl

lemma segTimes_length : ∀ (ss : List Q2) (k : ℕ), (segTimes ss k).length = ss.length - 1
  | [], _ => rfl
  | [_], _ => rfl
  | a :: b :: l, k => by
      rw [segTimes_cons2, List.length_cons, segTimes_length (b :: l) (k + 1)]
      simp only [List.length_cons]
      omega

/-- If the final assignment counter stayed within budget, no break ever fired:
every window was consumed, one emitted line per window with consecutive
times. -/
lemma binLoop_no_break : ∀ (samples : List Q2) (st : BinState),
    (binLoop samples st).lbs ≤ MAX_LINES - 256 →
    (binLoop samples st).batch = st.batch + (samples.length - 1) ∧
    (binLoop samples st).emitted = st.emitted ++ segTimes samples st.batch
  | [], st, _ => by rw [binLoop_nil]; simp [segTimes_nil]
  | [a], st, _ => by rw [binLoop_single]; simp [segTimes_single]
  | a :: b :: l, st, h => by
      rw [binLoop_cons2] at h ⊢
      rcases Decidable.em (MAX_LINES - 256 < (binStep a b st).lbs) with hbr | hbr
      · rw [if_pos hbr] at h
        exact absurd h (by omega)
      · rw [if_neg hbr] at h ⊢
        obtain ⟨hb, he⟩ := binLoop_no_break (b :: l) (binStep a b st) h
        constructor
        · rw [hb, binStep_batch]
          simp [List.length_cons]
          omega
        · rw [he, binStep_emitted, segTimes_cons2, binStep_batch]
          simp

lemma binLoop_batch_mono : ∀ (samples : List Q2) (st : BinState),
    st.batch ≤ (binLoop samples st).batch
  | [], st => by rw [binLoop_nil]
  | [_], st => by rw [binLoop_single]
  | a :: b :: l, st => by
      rw [binLoop_cons2]
      rcases Decidable.em (MAX_LINES - 256 < (binStep a b st).lbs) with hbr | hbr
      · rw [if_pos hbr, binStep_batch]; omega
      · rw [if_neg hbr]
        have h2 := binLoop_batch_mono (b :: l) (binStep a b st)
        rw [binStep_batch] at h2
        omega

lemma binLoop_batch_ge_one (a b : Q2) (l : List Q2) (st : BinState) :
    st.batch + 1 ≤ (binLoop (a :: b :: l) st).batch := by
  rw [binLoop_cons2]
  rcases Decidable.em (MAX_LINES - 256 < (binStep a b st).lbs) with hbr | hbr
  · rw [if_pos hbr, binStep_batch]
  · rw [if_neg hbr]
    have h2 := binLoop_batch_mono (b :: l) (binStep a b st)
    rw [binStep_batch] at h2
    omega

lemma binLoop_batch_le : ∀ (samples : List Q2) (st : BinState),
    (binLoop samples st).batch ≤ st.batch + (samples.length - 1)
  | [], st => by rw [binLoop_nil]; omega
  | [_], st => by rw [binLoop_single]; omega
  | a :: b :: l, st => by
      rw [binLoop_cons2]
      rcases Decidable.em (MAX_LINES - 256 < (binStep a b st).lbs) with hbr | hbr
      · rw [if_pos hbr, binStep_batch]
        simp [List.length_cons]
      · rw [if_neg hbr]
        have h2 := binLoop_batch_le (b :: l) (binStep a b st)
        rw [binStep_batch] at h2
        simp [List.length_cons] at h2 ⊢
        omega

/-! ### The directory loop -/

lemma buildDirectory_nil (off : ℕ) : buildDirectory off [] = some [] := rfl

lemma buildDirectory_cons (off : ℕ) (c : List Line) (cs : List (List Line)) :
    buildDirectory off (c :: cs) =
      if c.length ≤ 65535 ∧ off + c.length ≤ 65535 then
        (buildDirectory (off + c.length) cs).map (fun d => (off, c.length) :: d)
      else none := rfl

/-- The directory loop succeeds (no `try_into` panic, no 16-bit overflow)
whenever the initial offset plus the total bucketed lines fits in `u16`. -/
lemma buildDirectory_some : ∀ (cs : List (List Line)) (off : ℕ),
    off + sumLens cs ≤ 65535 → ∃ d, buildDirectory off cs = some d
  | [], off, _ => ⟨[], rfl⟩
  | c :: cs, off, h => by
      have hsum : sumLens (c :: cs) = c.length + sumLens cs := sumLens_cons c cs
      obtain ⟨d, hd⟩ := buildDirectory_some cs (off + c.length) (by omega)
      refine ⟨(off, c.length) :: d, ?_⟩
      rw [buildDirectory_cons, if_pos (by omega), hd]
      rfl

/-- What the directory loop computes: entry `j` holds the prefix sum of all
earlier bucket sizes, paired with bucket `j`'s size. -/
lemma buildDirectory_spec : ∀ (cs : List (List Line)) (off : ℕ) (d : List (ℕ × ℕ)),
    buildDirectory off cs = some d →
    d.length = cs.length ∧
    ∀ j, j < cs.length → d[j]? = some (off + sumLens (cs.take j), (cs.getD j []).length)
  | [], off, d, h => by
      rw [buildDirectory_nil] at h
      injection h with h
      subst h
      exact ⟨rfl, by intro j hj; simp at hj⟩
  | c :: cs, off, d, h => by
      rw [buildDirectory_cons] at h
      by_cases hc : c.length ≤ 65535 ∧ off + c.length ≤ 65535
      · rw [if_pos hc] at h
        cases hrec : buildDirectory (off + c.length) cs with
        | none => rw [hrec] at h; simp at h
        | some d2 =>
            rw [hrec] at h
            have h2 : some ((off, c.length) :: d2) = some d := h
            injection h2 with h2
            subst h2
            obtain ⟨hlen, hspec⟩ := buildDirectory_spec cs (off + c.length) d2 hrec
            refine ⟨by simp [hlen], ?_⟩
            intro j hj
            cases j with
            | zero => simp [sumLens]
            | succ j =>
                have hj2 : j < cs.length := by simpa using hj
                have := hspec j hj2
                simp only [List.getElem?_cons_succ, List.take_succ_cons, sumLens_cons,
                  List.getD_cons_succ, this]
                congr 2
                omega
      · rw [if_neg hc] at h
        simp at h

/-! ### The backlog update -/

lemma genSamplesAfter_eq_drop (ss : List Q2) (b : ℕ) (hb : 1 ≤ b) (hble : b ≤ ss.length) :
    genSamplesAfter ss b = ss.drop (b - 1) := by
  rw [genSamplesAfter]
  have harith : ss.length - b + 1 = ss.length - (b - 1) := by omega
  rw [harith]
  exact List.take_left' (by rw [List.length_drop])

/-! ### Characterization of `generateChunks` -/

lemma generateChunks_some_of (samples : List Q2) (d : List (ℕ × ℕ))
    (hdir : buildDirectory 0 (binPhase samples).chunks = some d)
    (hb : (binPhase samples).batch ≠ 0) :
    generateChunks samples = some
      { dir := d
        buckets := (binPhase samples).chunks
        lines := (binPhase samples).chunks.flatten
        chunksAfter := List.replicate 256 []
        samplesAfter := genSamplesAfter samples (binPhase samples).batch
        batch := (binPhase samples).batch
        emitted := (binPhase samples).emitted
        totalTime := (binPhase samples).batch } := by
  simp only [generateChunks]
  rw [hdir]
  simp only [if_neg hb]

lemma generateChunks_inv (samples : List Q2) (r : GenResult)
    (h : generateChunks samples = some r) :
    buildDirectory 0 (binPhase samples).chunks = some r.dir ∧
    r.buckets = (binPhase samples).chunks ∧
    r.lines = (binPhase samples).chunks.flatten ∧
    r.chunksAfter = List.replicate 256 [] ∧
    r.batch = (binPhase samples).batch ∧ 1 ≤ r.batch ∧
    r.samplesAfter = genSamplesAfter samples r.batch ∧
    r.emitted = (binPhase samples).emitted ∧ r.totalTime = r.batch := by
  simp only [generateChunks] at h
  cases hdir : buildDirectory 0 (binPhase samples).chunks with
  | none => rw [hdir] at h; simp at h
  | some d =>
      rw [hdir] at h
      have h2 : (if (binPhase samples).batch = 0 then (none : Option GenResult)
          else some ⟨d, (binPhase samples).chunks, (binPhase samples).chunks.flatten,
            List.replicate 256 [], genSamplesAfter samples (binPhase samples).batch,
            (binPhase samples).batch, (binPhase samples).emitted,
            (binPhase samples).batch⟩) = some r := h
      by_cases hb : (binPhase samples).batch = 0
      · rw [if_pos hb] at h2; simp at h2
      · rw [if_neg hb] at h2
        injection h2 with h2
        subst h2
        exact ⟨rfl, rfl, rfl, rfl, rfl, by simpa using Nat.one_le_iff_ne_zero.mpr hb,
          rfl, rfl, rfl⟩

end Glowie

namespace Glowie

/-! ### A concrete budget-exhausting run: a constant stream at tile 0's center -/

lemma initChunks_length : initChunks.length = 256 := by
  rw [initChunks, List.length_replicate]

lemma sumLens_initChunks : sumLens initChunks = 0 := by
  rw [initChunks, sumLens, List.map_replicate, List.sum_replicate, List.length_nil,
    smul_zero]

lemma binPhase_def (samples : List Q2) :
    binPhase samples = binLoop samples ⟨initChunks, 0, 0, []⟩ := rfl

lemma drop_replicate {α : Type} (a : α) : ∀ (m n : ℕ),
    (List.replicate n a).drop m = List.replicate (n - m) a
  | 0, n => by simp
  | m + 1, 0 => by simp
  | m + 1, n + 1 => by
      rw [List.replicate_succ, List.drop_succ_cons, drop_replicate a m n]
      congr 1
      omega

unseal Rat.add Rat.mul Rat.sub Rat.inv in
lemma acceptedIdxs_cc : acceptedIdxs ccSample ccSample = [0] := by decide

lemma binStep_cc (st : BinState) : binStep ccSample ccSample st =
    ⟨pushAt st.chunks 0 (mkLine ccSample ccSample st.batch), st.lbs + 1, st.batch + 1,
      st.emitted ++ [mkLine ccSample ccSample st.batch]⟩ := by
  simp only [binStep, acceptedIdxs_cc, List.foldl_cons, List.foldl_nil,
    List.length_cons, List.length_nil]

lemma binLoop_replicate_cc : ∀ (n : ℕ) (st : BinState) (rest : List Q2),
    st.lbs + n ≤ MAX_LINES - 256 → 0 < st.chunks.length →
    ∃ ch em, binLoop (List.replicate (n + 1) ccSample ++ rest) st =
        binLoop (ccSample :: rest) ⟨ch, st.lbs + n, st.batch + n, em⟩ ∧
      ch.length = st.chunks.length ∧ sumLens ch = sumLens st.chunks + n
  | 0, st, rest, _, _ => by
      refine ⟨st.chunks, st.emitted, ?_, rfl, by omega⟩
      obtain ⟨c, l, b, em⟩ := st
      show binLoop (List.replicate 1 ccSample ++ rest) ⟨c, l, b, em⟩
          = binLoop (ccSample :: rest) ⟨c, l + 0, b + 0, em⟩
      rw [List.replicate_succ, List.replicate_zero, List.cons_append, List.nil_append,
        Nat.add_zero, Nat.add_zero]
  | n + 1, st, rest, h, hpos => by
      have hsplit : List.replicate (n + 1 + 1) ccSample ++ rest
          = ccSample :: (ccSample :: (List.replicate n ccSample ++ rest)) := by
        rw [List.replicate_succ, List.replicate_succ, List.cons_append, List.cons_append]
      have hsplit2 : ccSample :: (List.replicate n ccSample ++ rest)
          = List.replicate (n + 1) ccSample ++ rest := by
        rw [List.replicate_succ, List.cons_append]
      have hstep := binStep_cc st
      have hnobr : ¬ (MAX_LINES - 256 < (binStep ccSample ccSample st).lbs) := by
        rw [hstep]
        show ¬ (MAX_LINES - 256 < st.lbs + 1)
        omega
      obtain ⟨ch, em, heq, hlen, hsum⟩ :=
        binLoop_replicate_cc n
          ⟨pushAt st.chunks 0 (mkLine ccSample ccSample st.batch), st.lbs + 1,
            st.batch + 1, st.emitted ++ [mkLine ccSample ccSample st.batch]⟩
          rest (by show st.lbs + 1 + n ≤ MAX_LINES - 256; omega)
          (by show 0 < (pushAt st.chunks 0 (mkLine ccSample ccSample st.batch)).length
              rw [pushAt_length]
              exact hpos)
      have e1 : (⟨pushAt st.chunks 0 (mkLine ccSample ccSample st.batch), st.lbs + 1,
          st.batch + 1, st.emitted ++ [mkLine ccSample ccSample st.batch]⟩ : BinState).lbs + n
          = st.lbs + (n + 1) := by
        show st.lbs + 1 + n = st.lbs + (n + 1)
        omega
      have e2 : (⟨pushAt st.chunks 0 (mkLine ccSample ccSample st.batch), st.lbs + 1,
          st.batch + 1, st.emitted ++ [mkLine ccSample ccSample st.batch]⟩ : BinState).batch + n
          = st.batch + (n + 1) := by
        show st.batch + 1 + n = st.batch + (n + 1)
        omega
      rw [e1, e2] at heq
      refine ⟨ch, em, ?_, ?_, ?_⟩
      · rw [hsplit, binLoop_cons2, if_neg hnobr, hstep, hsplit2, heq]
      · rw [hlen]
        show (pushAt st.chunks 0 (mkLine ccSample ccSample st.batch)).length = st.chunks.length
        rw [pushAt_length]
      · rw [hsum]
        show sumLens (pushAt st.chunks 0 (mkLine ccSample ccSample st.batch)) + n
            = sumLens st.chunks + (n + 1)
        rw [sumLens_pushAt st.chunks 0 _ hpos]
        omega

lemma binPhase_replicate_cc :
    ∃ ch em2, binPhase (List.replicate 65284 ccSample) =
        ⟨pushAt ch 0 (mkLine ccSample ccSample 65280), 65281, 65281, em2⟩ ∧
      ch.length = 256 ∧ sumLens ch = 65280 := by
  have hsplit : List.replicate 65284 ccSample =
      List.replicate (65280 + 1) ccSample ++ List.replicate 3 ccSample := by
    rw [← List.replicate_add]
  obtain ⟨ch, em, heq, hlen, hsum⟩ :=
    binLoop_replicate_cc 65280 ⟨initChunks, 0, 0, []⟩ (List.replicate 3 ccSample)
      (by show 0 + 65280 ≤ MAX_LINES - 256; decide)
      (by show 0 < initChunks.length; rw [initChunks_length]; omega)
  have heq2 : binLoop (List.replicate (65280 + 1) ccSample ++ List.replicate 3 ccSample)
      (⟨initChunks, 0, 0, []⟩ : BinState)
      = binLoop (ccSample :: List.replicate 3 ccSample)
          (⟨ch, 65280, 65280, em⟩ : BinState) := heq
  have hlen2 : ch.length = 256 := by
    rw [hlen]
    exact initChunks_length
  have hsum2 : sumLens ch = 65280 := by
    rw [hsum]
    show sumLens initChunks + 65280 = 65280
    rw [sumLens_initChunks]
  have hsplit2 : ccSample :: List.replicate 3 ccSample
      = ccSample :: ccSample :: List.replicate 2 ccSample := by
    rw [show (3 : ℕ) = 2 + 1 from rfl, List.replicate_succ]
  have hstep : binStep ccSample ccSample (⟨ch, 65280, 65280, em⟩ : BinState)
      = ⟨pushAt ch 0 (mkLine ccSample ccSample 65280), 65281, 65281,
          em ++ [mkLine ccSample ccSample 65280]⟩ := binStep_cc _
  have hcond : MAX_LINES - 256 < ((⟨pushAt ch 0 (mkLine ccSample ccSample 65280), 65281, 65281,
      em ++ [mkLine ccSample ccSample 65280]⟩ : BinState)).lbs := by
    show MAX_LINES - 256 < 65281
    rw [MAX_LINES]
    omega
  refine ⟨ch, em ++ [mkLine ccSample ccSample 65280], ?_, hlen2, hsum2⟩
  rw [binPhase_def, hsplit, heq2, hsplit2, binLoop_cons2, hstep, if_pos hcond]

end Glowie

namespace Glowie

/-! ### Remaining helper lemmas -/

lemma sumLens_append (a b : List (List Line)) :
    sumLens (a ++ b) = sumLens a + sumLens b := by
  rw [sumLens, sumLens, sumLens, List.map_append, List.sum_append]

lemma sumLens_take_succ : ∀ (cs : List (List Line)) (j : ℕ), j < cs.length →
    sumLens (cs.take (j + 1)) = sumLens (cs.take j) + (cs.getD j []).length
  | c :: cs, 0, _ => by
      rw [List.take_succ_cons, List.take_zero, List.take_zero, sumLens_cons,
        List.getD_cons_zero]
      show c.length + sumLens [] = sumLens [] + c.length
      omega
  | c :: cs, j + 1, h => by
      rw [List.take_succ_cons, List.take_succ_cons, sumLens_cons, sumLens_cons,
        sumLens_take_succ cs j (by simpa using h), List.getD_cons_succ]
      omega

lemma binStep_chunks_getElem (s0 s1 : Q2) (st : BinState) (j : ℕ) :
    ((binStep s0 s1 st).chunks)[j]? =
      if acceptB s0 s1 (tileCenter j) = true ∧ j < 256 then
        (st.chunks[j]?).map (· ++ [mkLine s0 s1 st.batch])
      else st.chunks[j]? := by
  have hnd : (acceptedIdxs s0 s1).Nodup := by
    rw [acceptedIdxs]
    exact (List.nodup_range 256).filter _
  have h := foldl_pushAt_getElem? (acceptedIdxs s0 s1) hnd st.chunks (mkLine s0 s1 st.batch) j
  show ((acceptedIdxs s0 s1).foldl (fun c i => pushAt c i (mkLine s0 s1 st.batch))
      st.chunks)[j]? = _
  rw [h]
  by_cases hj : j ∈ acceptedIdxs s0 s1
  · have hj2 : acceptB s0 s1 (tileCenter j) = true ∧ j < 256 := by
      have hmem := hj
      rw [acceptedIdxs] at hmem
      have := List.mem_filter.mp hmem
      exact ⟨by simpa using this.2, by simpa using List.mem_range.mp this.1⟩
    rw [if_pos hj, if_pos hj2]
  · have hj2 : ¬ (acceptB s0 s1 (tileCenter j) = true ∧ j < 256) := by
      intro ⟨h1, h2⟩
      exact hj (by
        rw [acceptedIdxs]
        exact List.mem_filter.mpr ⟨List.mem_range.mpr h2, by simpa using h1⟩)
    rw [if_neg hj, if_neg hj2]

/-! ### Claim theorems -/

/-- Claim C1: for every input sample sequence, the binning pass stops consuming
further segments once the running (segment × tile) assignment counter exceeds
`MAX_LINES - 256`; the total number of tile assignments placed in the flat line
buffer never exceeds `MAX_LINES = 65536`; and building the 256-entry directory
afterwards neither crashes nor wraps its 16-bit offsets (all offset/size guards
of `buildDirectory` hold, so it returns `some`). -/
theorem c1_budget_and_directory :
    (∀ samples : List Q2,
      (binPhase samples).lbs ≤ MAX_LINES ∧
      ((binPhase samples).chunks.flatten).length ≤ MAX_LINES ∧
      (buildDirectory 0 (binPhase samples).chunks).isSome = true) ∧
    (∀ (s0 s1 : Q2) (rest : List Q2) (st : BinState),
      MAX_LINES - 256 < (binStep s0 s1 st).lbs →
      binLoop (s0 :: s1 :: rest) st = binStep s0 s1 st) := by
  constructor
  · intro samples
    obtain ⟨hlen, hsum, hlbs⟩ := binLoop_invariant samples ⟨initChunks, 0, 0, []⟩
      initChunks_length sumLens_initChunks (Nat.zero_le _)
    refine ⟨?_, ?_, ?_⟩
    · show (binPhase samples).lbs ≤ MAX_LINES
      rw [MAX_LINES] at hlbs ⊢
      exact le_trans hlbs (by omega)
    · rw [List.length_flatten]
      show sumLens (binPhase samples).chunks ≤ MAX_LINES
      rw [binPhase_def, hsum, MAX_LINES]
      rw [MAX_LINES] at hlbs
      omega
    · obtain ⟨d, hd⟩ := buildDirectory_some (binPhase samples).chunks 0 (by
        show 0 + sumLens (binLoop samples ⟨initChunks, 0, 0, []⟩).chunks ≤ 65535
        rw [hsum]
        rw [MAX_LINES] at hlbs
        omega)
      rw [hd]
      rfl
  · intro s0 s1 rest st h
    rw [binLoop_cons2, if_pos h]

unseal Rat.add Rat.mul Rat.sub Rat.inv in
set_option maxRecDepth 100000 in
/-- Witness for C1: at the concrete threshold state `stBudget` one more
segment at tile 0's center overruns the margin and the loop stops. -/
theorem c1_budget_witness :
    (MAX_LINES - 256 < (binStep ccSample ccSample stBudget).lbs) ∧
    binLoop [ccSample, ccSample] stBudget = binStep ccSample ccSample stBudget :=
  ⟨by decide, c1_budget_and_directory.2 ccSample ccSample [] stBudget (by decide)⟩

set_option maxRecDepth 100000 in
/-- Claim C2 (code bug): with fewer than 2 backlog frames the spec says
`generate_chunks` emits zero segments and leaves the backlog untouched, but the
code underflows `batch_size - 1` (usize) and panics in `copy_within`; the model
returns `none` (a panic), never a completed frame. -/
theorem c2_single_frame_crash :
    (∀ p : Q2, generateChunks [p] = none) ∧ generateChunks ([] : List Q2) = none :=
  ⟨fun _ => rfl, rfl⟩

unseal Rat.add Rat.mul Rat.sub Rat.inv in
set_option maxRecDepth 100000 in
/-- Counterexample for C3 as stated: on the two-frame backlog `demoPair`
(within budget) the generator emits N − 1 = 1 segment, but the retained
backlog afterwards holds 2 frames, not exactly 1. -/
theorem c3_counterexample :
    (binPhase demoPair).lbs ≤ MAX_LINES - 256 ∧
    (generateChunks demoPair).map (fun r => (r.emitted.length, r.samplesAfter.length))
      = some (1, 2) ∧ (2 : ℕ) ≠ 1 := by decide

/-- Claim C3 (amended): for every backlog with N ≥ 2 frames whose tile
assignments stay within the binning budget, the generator emits exactly N − 1
segments, one per adjacent pair, with times 0, 1, …, N − 2 in order — but the
backlog afterwards contains exactly 2 frames (the last two of the batch), not
1. -/
theorem c3_segments_and_backlog :
    ∀ samples : List Q2, 2 ≤ samples.length →
    (binPhase samples).lbs ≤ MAX_LINES - 256 →
    ∃ r, generateChunks samples = some r ∧
      r.batch = samples.length - 1 ∧
      r.emitted = segTimes samples 0 ∧
      r.emitted.length = samples.length - 1 ∧
      r.samplesAfter = samples.drop (samples.length - 2) ∧
      r.samplesAfter.length = 2 := by
  intro samples h2 hbudget
  obtain ⟨hclen, hsum, hlbs⟩ := binLoop_invariant samples ⟨initChunks, 0, 0, []⟩
    initChunks_length sumLens_initChunks (Nat.zero_le _)
  obtain ⟨hbatch, hemit⟩ := binLoop_no_break samples ⟨initChunks, 0, 0, []⟩ hbudget
  have hbatch2 : (binPhase samples).batch = samples.length - 1 := by
    rw [binPhase_def, hbatch]
    show 0 + (samples.length - 1) = samples.length - 1
    omega
  have hbne : (binPhase samples).batch ≠ 0 := by
    rw [hbatch2]
    omega
  obtain ⟨d, hd⟩ := buildDirectory_some (binPhase samples).chunks 0 (by
    show 0 + sumLens (binLoop samples ⟨initChunks, 0, 0, []⟩).chunks ≤ 65535
    rw [hsum]
    rw [MAX_LINES] at hlbs
    omega)
  refine ⟨_, generateChunks_some_of samples d hd hbne, ?_, ?_, ?_, ?_, ?_⟩
  · exact hbatch2
  · show (binPhase samples).emitted = segTimes samples 0
    rw [binPhase_def, hemit]
    show [] ++ segTimes samples 0 = segTimes samples 0
    rw [List.nil_append]
  · show (binPhase samples).emitted.length = samples.length - 1
    rw [binPhase_def, hemit]
    show (segTimes samples 0).length = samples.length - 1
    exact segTimes_length samples 0
  · show genSamplesAfter samples (binPhase samples).batch = samples.drop (samples.length - 2)
    rw [hbatch2, genSamplesAfter_eq_drop samples (samples.length - 1) (by omega) (by omega)]
    congr 1
  · show (genSamplesAfter samples (binPhase samples).batch).length = 2
    rw [hbatch2, genSamplesAfter_eq_drop samples (samples.length - 1) (by omega) (by omega),
      List.length_drop]
    omega

unseal Rat.add Rat.mul Rat.sub Rat.inv in
set_option maxRecDepth 100000 in
/-- Witness for the amended C3 at the concrete backlog `demoPair`. -/
theorem c3_witness :
    (2 ≤ demoPair.length ∧ (binPhase demoPair).lbs ≤ MAX_LINES - 256) ∧
    (∃ r, generateChunks demoPair = some r ∧
      r.batch = demoPair.length - 1 ∧
      r.emitted = segTimes demoPair 0 ∧
      r.emitted.length = demoPair.length - 1 ∧
      r.samplesAfter = demoPair.drop (demoPair.length - 2) ∧
      r.samplesAfter.length = 2) :=
  ⟨⟨by decide, by decide⟩, c3_segments_and_backlog demoPair (by decide) (by decide)⟩

/-- Claim C4: for every float x in [-1, 1], unpacking `pack16snorm x` yields a
value within one quantization step (1/32767) of x, rounding to nearest; inputs
outside [-1, 1] are clamped before quantization, so `pack16snorm 2 =
pack16snorm 1`. -/
theorem c4_pack_roundtrip :
    (∀ x : ℚ, -1 ≤ x → x ≤ 1 → |unpack16snorm (pack16snorm x) - x| ≤ 1 / 32767) ∧
    pack16snorm 2 = pack16snorm 1 ∧
    (∀ x : ℚ, pack16snorm x = pack16snorm (clampQ x (-1) 1)) := by
  refine ⟨?_, ?_, ?_⟩
  · intro x h1 h2
    exact le_trans (roundtrip_half h1 h2) (by norm_num)
  · exact pack16snorm_of_ge_one (by norm_num)
  · intro x
    exact (pack16snorm_clamp x).symm

unseal Rat.add Rat.mul Rat.sub Rat.inv in
/-- Witness for C4 at x = 1/3. -/
theorem c4_witness :
    ((-1 : ℚ) ≤ 1 / 3 ∧ (1 / 3 : ℚ) ≤ 1) ∧
    |unpack16snorm (pack16snorm (1 / 3)) - 1 / 3| ≤ 1 / 32767 :=
  ⟨⟨by decide, by decide⟩, c4_pack_roundtrip.1 (1 / 3) (by decide) (by decide)⟩

end Glowie

namespace Glowie

/-- Claim C5: the tile directory built by the single row-major pass satisfies
`offset[j] = sum of all prior counts` (so `offset[j] + count[j] = offset[j+1]`
and offsets are non-decreasing), the flat line buffer is exactly the
concatenation of the tile buckets in row-major order, and each bucket is
emptied afterwards. -/
theorem c5_directory_prefix_sums :
    ∀ (samples : List Q2) (r : GenResult), generateChunks samples = some r →
    r.dir.length = 256 ∧ r.buckets.length = 256 ∧
    (∀ j, j < 256 →
      r.dir[j]? = some (sumLens (r.buckets.take j), (r.buckets.getD j []).length)) ∧
    (∀ j o1 c1 o2 c2, r.dir[j]? = some (o1, c1) → r.dir[j + 1]? = some (o2, c2) →
      o2 = o1 + c1 ∧ o1 ≤ o2) ∧
    r.lines = r.buckets.flatten ∧
    (∀ b ∈ r.chunksAfter, b = []) := by
  intro samples r h
  obtain ⟨hdir, hbuck, hlines, hafter, hbatch, hb1, hsam, hemit, htt⟩ :=
    generateChunks_inv samples r h
  have hclen : (binPhase samples).chunks.length = 256 :=
    (binLoop_invariant samples ⟨initChunks, 0, 0, []⟩ initChunks_length
      sumLens_initChunks (Nat.zero_le _)).1
  obtain ⟨hdlen, hdspec⟩ := buildDirectory_spec (binPhase samples).chunks 0 r.dir hdir
  have hdl256 : r.dir.length = 256 := by rw [hdlen, hclen]
  have hbl256 : r.buckets.length = 256 := by rw [hbuck, hclen]
  have hspec : ∀ j, j < 256 →
      r.dir[j]? = some (sumLens (r.buckets.take j), (r.buckets.getD j []).length) := by
    intro j hj
    have hx := hdspec j (by rw [hclen]; exact hj)
    rw [hbuck, hx, Nat.zero_add]
  refine ⟨hdl256, hbl256, hspec, ?_, ?_, ?_⟩
  · intro j o1 c1 o2 c2 h1 h2
    have hj1 : j + 1 < 256 := by
      obtain ⟨hlt, -⟩ := List.getElem?_eq_some_iff.mp h2
      rw [hdl256] at hlt
      exact hlt
    have hj0 : j < 256 := by omega
    have e1 := hspec j hj0
    have e2 := hspec (j + 1) hj1
    rw [h1] at e1
    rw [h2] at e2
    injection e1 with e1
    injection e2 with e2
    simp only [Prod.mk.injEq] at e1 e2
    obtain ⟨ho1, hc1⟩ := e1
    obtain ⟨ho2, hc2⟩ := e2
    have hstep : sumLens (r.buckets.take (j + 1))
        = sumLens (r.buckets.take j) + (r.buckets.getD j []).length :=
      sumLens_take_succ r.buckets j (by rw [hbl256]; exact hj0)
    constructor
    · rw [ho2, hstep, ho1, hc1]
    · rw [ho1, ho2, hstep]
      omega
  · rw [hlines, hbuck]
  · intro b hb
    rw [hafter] at hb
    exact List.eq_of_mem_replicate hb

unseal Rat.add Rat.mul Rat.sub Rat.inv in
set_option maxRecDepth 100000 in
/-- Witness for C5 at the concrete backlog `demoPair`. -/
theorem c5_witness :
    ∃ r, generateChunks demoPair = some r ∧ r.dir.length = 256 := by
  have hs : (generateChunks demoPair).isSome = true := by decide
  exact ⟨(generateChunks demoPair).get hs, (Option.some_get hs).symm,
    (c5_directory_prefix_sums demoPair _ (Option.some_get hs).symm).1⟩

unseal Rat.add Rat.mul Rat.sub Rat.inv in
/-- Counterexample for C6 as stated: a degenerate segment 1/10 away from tile
0's center is accepted by the code, although 1/10 is far above "1/8 of a
tile's half-width" (a tile's half-width is 1/16 in NDC, so that threshold
would be 1/128, i.e. squared 1/16384). -/
theorem c6_counterexample :
    acceptB ((-15) / 16 + 1 / 10, (-15) / 16) ((-15) / 16 + 1 / 10, (-15) / 16)
        (tileCenter 0) = true ∧
    ¬ (dispSq ((-15) / 16 + 1 / 10, (-15) / 16) ((-15) / 16 + 1 / 10, (-15) / 16)
        (tileCenter 0) < (1 / 8 * (1 / 16)) ^ 2) := by decide

unseal Rat.add Rat.mul Rat.sub Rat.inv in
set_option maxRecDepth 100000 in
/-- Claim C6 (amended): a tile accepts a segment into its bucket iff the
displacement from the tile's center to the closest point of the segment
(projection parameter clamped to [0, 1]) is below 1/8 in normalized device
coordinates — i.e. one full tile width, or two tile half-widths — a fixed
threshold independent of the configured line radius (the test reads no radius
at all); an accepted segment is appended to every accepting tile's bucket and
left out of every other bucket, and a segment may be accepted by zero, one, or
many tiles. -/
theorem c6_tile_acceptance :
    (∀ s e c : Q2, acceptB s e c = true ↔ 64 * dispSq s e c < 1) ∧
    (∀ (s0 s1 : Q2) (st : BinState) (j : ℕ),
      ((binStep s0 s1 st).chunks)[j]? =
        if acceptB s0 s1 (tileCenter j) = true ∧ j < 256 then
          (st.chunks[j]?).map (· ++ [mkLine s0 s1 st.batch])
        else st.chunks[j]?) ∧
    acceptedIdxs (5, 5) (5, 5) = [] ∧
    (acceptedIdxs (0, 0) (0, 0)).length = 4 := by
  refine ⟨?_, binStep_chunks_getElem, by decide, by decide⟩
  intro s e c
  exact decide_eq_true_iff

unseal Rat.add Rat.mul Rat.sub Rat.inv in
set_option maxRecDepth 100000 in
/-- Counterexample for C7 as stated: the end-to-end scenario produces 3
segments (the fresh `Scope` backlog already holds the frame (0,0), so the
batch is (0,0), (0,0), (1,0), (1,1)), not 2, and the backlog afterwards is
[(1,0), (1,1)], not [(1,1)]. -/
theorem c7_counterexample :
    (generateChunks scenarioSamples).map (fun r => (r.emitted.length, r.samplesAfter))
      = some (3, [((1 : ℚ), (0 : ℚ)), ((1 : ℚ), (1 : ℚ))]) ∧
    (3 : ℕ) ≠ 2 ∧
    ([((1 : ℚ), (0 : ℚ)), ((1 : ℚ), (1 : ℚ))] : List Q2) ≠ [((1 : ℚ), (1 : ℚ))] := by
  decide

unseal Rat.add Rat.mul Rat.sub Rat.inv in
set_option maxRecDepth 100000 in
/-- Claim C7 (amended): pushing the frames (0,0), (1,0), (1,1) into a fresh
`Scope` (whose backlog is seeded with (0,0)) produces exactly 3 segments —
(0,0)→(0,0) at time 0, (0,0)→(1,0) at time 1, (1,0)→(1,1) at time 2 — and the
backlog afterwards contains the last two frames (1,0) and (1,1). -/
theorem c7_end_to_end :
    (generateChunks scenarioSamples).map (fun r => (r.batch, r.emitted, r.samplesAfter))
      = some (3, [mkLine (0, 0) (0, 0) 0, mkLine (0, 0) (1, 0) 1, mkLine (1, 0) (1, 1) 2],
          [((1 : ℚ), (0 : ℚ)), ((1 : ℚ), (1 : ℚ))]) := by
  decide

end Glowie

namespace Glowie

set_option maxRecDepth 10000 in
/-- Counterexample for C8 as stated: a stream of 65284 identical frames at
tile 0's center makes the budget stop consumption after 65281 of the 65283
available segments, yet the retained backlog is the 4-frame suffix
starting at the last consumed segment's start — not exactly one frame. -/
theorem c8_counterexample :
    ∃ r, generateChunks (List.replicate 65284 ccSample) = some r ∧
      r.batch = 65281 ∧ r.batch < 65284 - 1 ∧
      r.samplesAfter = List.replicate 4 ccSample ∧ r.samplesAfter.length ≠ 1 := by
  obtain ⟨ch, em2, heq, hlen, hsum⟩ := binPhase_replicate_cc
  have hchunks : (binPhase (List.replicate 65284 ccSample)).chunks
      = pushAt ch 0 (mkLine ccSample ccSample 65280) := by rw [heq]
  have hbatch : (binPhase (List.replicate 65284 ccSample)).batch = 65281 := by rw [heq]
  have hsum2 : sumLens (pushAt ch 0 (mkLine ccSample ccSample 65280)) = 65281 := by
    rw [sumLens_pushAt ch 0 _ (by rw [hlen]; omega), hsum]
  obtain ⟨d, hd⟩ := buildDirectory_some (pushAt ch 0 (mkLine ccSample ccSample 65280)) 0
    (by rw [Nat.zero_add, hsum2]; omega)
  have hd2 : buildDirectory 0 (binPhase (List.replicate 65284 ccSample)).chunks
      = some d := by
    rw [hchunks]
    exact hd
  have hsome := generateChunks_some_of (List.replicate 65284 ccSample) d hd2
    (by rw [hbatch]; omega)
  have hsa2 : genSamplesAfter (List.replicate 65284 ccSample) 65281
      = List.replicate 4 ccSample := by
    rw [genSamplesAfter_eq_drop (List.replicate 65284 ccSample) 65281 (by omega)
      (by rw [List.length_replicate]; omega), drop_replicate]
  rw [hbatch, hsa2] at hsome
  refine ⟨_, hsome, rfl, by show (65281 : ℕ) < 65284 - 1; omega, rfl, ?_⟩
  show (List.replicate 4 ccSample).length ≠ 1
  rw [List.length_replicate]
  omega

/-- Claim C8 (amended): whenever `generate_chunks` completes after consuming
`batch` segments — in particular when the budget stopped consumption early —
the retained backlog is the input suffix starting at the last consumed
segment's start frame, `samples.drop (batch - 1)`: the frames whose segments
were not consumed are all retained (buffered for the next frame), not
dropped, and the backlog holds `length - batch + 1` frames, not exactly one. -/
theorem c8_backlog_retained :
    ∀ (samples : List Q2) (r : GenResult), generateChunks samples = some r →
    r.samplesAfter = samples.drop (r.batch - 1) ∧
    List.IsSuffix (samples.drop (r.batch + 1)) r.samplesAfter ∧
    r.samplesAfter.length + r.batch = samples.length + 1 := by
  intro samples r h
  obtain ⟨-, -, -, -, hbatch, hb1, hsam, -, -⟩ := generateChunks_inv samples r h
  have hble : r.batch ≤ samples.length - 1 := by
    rw [hbatch, binPhase_def]
    have hb := binLoop_batch_le samples ⟨initChunks, 0, 0, []⟩
    exact le_trans hb (by show 0 + (samples.length - 1) ≤ samples.length - 1; omega)
  have hlen2 : 2 ≤ samples.length := by
    rcases Nat.lt_or_ge samples.length 2 with hlt | hge
    · exfalso
      omega
    · exact hge
  have hdrop : genSamplesAfter samples r.batch = samples.drop (r.batch - 1) :=
    genSamplesAfter_eq_drop samples r.batch hb1 (by omega)
  refine ⟨hsam.trans hdrop, ?_, ?_⟩
  · rw [hsam, hdrop]
    have hdd : samples.drop (r.batch + 1) = (samples.drop (r.batch - 1)).drop 2 := by
      rw [List.drop_drop]
      congr 1
      omega
    rw [hdd]
    exact List.drop_suffix 2 _
  · rw [hsam, hdrop, List.length_drop]
    omega

unseal Rat.add Rat.mul Rat.sub Rat.inv in
set_option maxRecDepth 100000 in
/-- Witness for the amended C8 at the concrete backlog `demoPair`. -/
theorem c8_witness :
    ∃ r, generateChunks demoPair = some r ∧
      r.samplesAfter = demoPair.drop (r.batch - 1) := by
  have hs : (generateChunks demoPair).isSome = true := by decide
  exact ⟨(generateChunks demoPair).get hs, (Option.some_get hs).symm,
    (c8_backlog_retained demoPair _ (Option.some_get hs).symm).1⟩

/-- Claim C9: during surface acquisition, a transiently unavailable surface
(`Lost`: reconfigure and retry; `Timeout`/`Outdated`: return `Ok(())`,
deferring to the next tick) never discards the pending sample state and never
returns an error, while a hard surface error (`OutOfMemory`) abandons the
frame and returns the error to the caller. -/
theorem c9_surface_errors :
    (∀ (rest : List AcquireResult) (st : AppState),
      redrawLoop (AcquireResult.err SurfaceErr.lost :: rest) st
          = redrawLoop rest (reconfigure st) ∧
        (reconfigure st).samples = st.samples) ∧
    (∀ (rest : List AcquireResult) (st : AppState),
      redrawLoop (AcquireResult.err SurfaceErr.timeout :: rest) st
        = some (RedrawOutcome.deferredOk st)) ∧
    (∀ (rest : List AcquireResult) (st : AppState),
      redrawLoop (AcquireResult.err SurfaceErr.outdated :: rest) st
        = some (RedrawOutcome.deferredOk st)) ∧
    (∀ (rest : List AcquireResult) (st : AppState),
      redrawLoop (AcquireResult.err SurfaceErr.outOfMemory :: rest) st
        = some (RedrawOutcome.failed SurfaceErr.outOfMemory st)) :=
  ⟨fun _ _ => ⟨rfl, rfl⟩, fun _ _ => rfl, fun _ _ => rfl, fun _ _ => rfl⟩

unseal Rat.add Rat.mul Rat.sub Rat.inv in
/-- Counterexample for C10 as stated: the segment from (-1/65534, 0) to
(1, 0) has its endpoints differ by 1 + 1/65534 > 1 in x, yet its encoded
endpoint (decoded start plus decoded clamped direction) is exactly the true
endpoint — well within one quantization step. -/
theorem c10_counterexample :
    (1 : ℚ) - (-1 / 65534) > 1 ∧
    encodedEndpoint (mkLine (-1 / 65534, 0) (1, 0) 0) = ((1 : ℚ), (0 : ℚ)) ∧
    |(encodedEndpoint (mkLine (-1 / 65534, 0) (1, 0) 0)).1 - 1| ≤ 1 / 32767 := by
  decide

/-- Claim C10 (amended): the direction word of a `Line` quantizes `end - start`
after clamping each component to [-1, 1] even though the true difference
ranges over [-2, 2]; whenever a coordinate of the difference exceeds 1 in
magnitude the decoded direction is strictly shorter than the true difference;
and whenever the start coordinate lies in [-1, 1] and the difference exceeds
1 by more than 3/65534, the encoded endpoint misses the true endpoint by more
than one quantization step (1/32767) in that coordinate.  (The margin is
necessary: see the counterexample, where the difference exceeds 1 by only
1/65534 and the rounding errors cancel exactly.) -/
theorem c10_direction_clamped :
    (∀ s e : Q2, (mkLine s e 0).v
        = pack2x16snorm (clampQ (e.1 - s.1) (-1) 1, clampQ (e.2 - s.2) (-1) 1)) ∧
    (∀ d : ℚ, 1 < |d| → |unpack16snorm (pack16snorm d)| < |d|) ∧
    (∀ s d : ℚ, -1 ≤ s → s ≤ 1 → 1 + 3 / 65534 < |d| →
      1 / 32767 < |unpack16snorm (pack16snorm s) + unpack16snorm (pack16snorm d)
        - (s + d)|) := by
  refine ⟨?_, ?_, ?_⟩
  · intro s e
    show pack2x16snorm (e - s) = _
    rw [pack2x16snorm, pack2x16snorm]
    show pack16snorm (e - s).1 + 65536 * pack16snorm (e - s).2
        = pack16snorm (clampQ (e.1 - s.1) (-1) 1)
          + 65536 * pack16snorm (clampQ (e.2 - s.2) (-1) 1)
    rw [pack16snorm_clamp, pack16snorm_clamp, Prod.fst_sub, Prod.snd_sub]
  · intro d hd
    rcases lt_abs.mp hd with h | h
    · rw [pack16snorm_of_ge_one (le_of_lt h), unpack_pack_one, abs_one,
        abs_of_pos (by linarith : (0 : ℚ) < d)]
      exact h
    · rw [pack16snorm_of_le_neg_one (by linarith : d ≤ -1), unpack_pack_neg_one,
        abs_neg, abs_one, abs_of_neg (by linarith : d < 0)]
      linarith
  · intro s d hs1 hs2 hd
    have hr := roundtrip_half hs1 hs2
    obtain ⟨hrl, hru⟩ := abs_le.mp hr
    rcases lt_abs.mp hd with h | h
    · rw [pack16snorm_of_ge_one (show (1 : ℚ) ≤ d by linarith), unpack_pack_one]
      refine lt_abs.mpr (Or.inr ?_)
      linarith
    · rw [pack16snorm_of_le_neg_one (show d ≤ (-1 : ℚ) by linarith), unpack_pack_neg_one]
      refine lt_abs.mpr (Or.inl ?_)
      linarith

unseal Rat.add Rat.mul Rat.sub Rat.inv in
/-- Witness for the amended C10 at s = 0, d = 2. -/
theorem c10_witness :
    ((1 : ℚ) < |(2 : ℚ)| ∧ |unpack16snorm (pack16snorm 2)| < |(2 : ℚ)|) ∧
    ((-1 : ℚ) ≤ 0 ∧ (0 : ℚ) ≤ 1 ∧ 1 + 3 / 65534 < |(2 : ℚ)|) ∧
    1 / 32767 < |unpack16snorm (pack16snorm 0) + unpack16snorm (pack16snorm 2)
      - (0 + 2)| :=
  ⟨⟨by decide, c10_direction_clamped.2.1 2 (by decide)⟩,
   ⟨by decide, by decide, by decide⟩,
   c10_direction_clamped.2.2 0 2 (by decide) (by decide) (by decide)⟩

end Glowie
